import Mathlib

/-!
Shallow embedding of the moby `networkdb` gossip delegate
(`daemon/libnetwork/networkdb/delegate.go`): the event handlers for node,
network and table events, the table-message rebroadcast path, and the
push-pull merge (`MergeRemoteState`).

Go maps are modelled as association lists; strings are kept as `String`
(identifiers are opaque, only equality matters); `time.Duration` values are
`Nat` nanoseconds; the protobuf `LTime` (`u64`) is `Nat`.  Helper functions
of the store that live outside `delegate.go` (the Lamport clock, entry and
node lookup/update, the broadcast queue) are modelled from the spec and say
so in their doc comments.
-/

namespace Networkdb

/-- Association-list lookup, modelling a Go map read `m[k]` with its `ok`
bit as `Option`. -/
def alookup {κ α : Type} [DecidableEq κ] : List (κ × α) → κ → Option α
  | [], _ => none
  | (k', v) :: rest, k => if k' = k then some v else alookup rest k

/-- Association-list insert/overwrite, modelling a Go map write `m[k] = v`. -/
def ainsert {κ α : Type} [DecidableEq κ] : List (κ × α) → κ → α → List (κ × α)
  | [], k, v => [(k, v)]
  | (k', v') :: rest, k, v =>
      if k' = k then (k, v) :: rest else (k', v') :: ainsert rest k v

/-- Modelled from the spec: the Lamport clock's `Witness` ("raising a clock
to the max of its current value and an observed value, regardless of event
acceptance").  The clock implementation is not under `src/`. -/
def witnessClock (c v : Nat) : Nat := max c v

/-- One nanosecond count per second: `time.Second`. -/
def second : Nat := 1000000000

inductive NodeEventType
  | invalid
  | join
  | leave
deriving DecidableEq

inductive NetworkEventType
  | invalid
  | join
  | leave
deriving DecidableEq

inductive TableEventType
  | invalid
  | create
  | delete
  | update
deriving DecidableEq

inductive NodeState
  | active
  | left
deriving DecidableEq

/-- A node record: Lamport time plus membership state (spec data model:
`{name, address, local Lamport time, membership state}`; the address plays
no role in the handlers modelled here). -/
structure nodeRec where
  ltime : Nat
  state : NodeState
deriving DecidableEq

/-- The protobuf `NodeEvent` payload fields used by `handleNodeEvent`. -/
structure NodeEvent where
  eType : NodeEventType
  ltime : Nat
  nodeName : String
deriving DecidableEq

/-- The protobuf `NetworkEvent` payload fields used by `handleNetworkEvent`. -/
structure NetworkEvent where
  eType : NetworkEventType
  ltime : Nat
  nodeName : String
  networkID : String
deriving DecidableEq

/-- The protobuf `TableEvent` payload fields used by `handleTableEvent`.
`residualReapTime` is in seconds (`ResidualReapSeconds: u32` in the spec's
payload schema). -/
structure TableEvent where
  eType : TableEventType
  ltime : Nat
  nodeName : String
  networkID : String
  tableName : String
  key : String
  value : String
  residualReapTime : Nat
deriving DecidableEq

/-- A queued per-network table rebroadcast (`tableEventMessage`); the
re-encoded wire bytes are represented by the decoded event itself. -/
structure tableEventMessage where
  id : String
  tname : String
  key : String
  msg : TableEvent
deriving DecidableEq

/-- A per-(owning node, network) record (`network` struct fields used by the
handlers).  `tableRebroadcasts` is the per-network broadcast queue, which in
Go lives behind a pointer in this struct; `NumQueued` is its length. -/
structure network where
  ltime : Nat
  leaving : Bool
  reapTime : Nat
  inSync : Bool
  tableRebroadcasts : List tableEventMessage
deriving DecidableEq

/-- A table entry (`entry` struct): value bytes, Lamport time, owning node,
tombstone flag and residual reap time (nanoseconds). -/
structure entry where
  ltime : Nat
  node : String
  value : String
  deleting : Bool
  reapTime : Nat
deriving DecidableEq

/-- Key of a table entry: (network id, table name, key). -/
structure entryKey where
  nid : String
  tname : String
  key : String
deriving DecidableEq

/-- The configuration fields read by the handlers.  Per the spec's design
notes, the tuned thresholds (`reapEntryInterval`, the sync queue bound) are
kept as configurable parameters. -/
structure Config where
  NodeID : String
  reapEntryInterval : Nat
  reapNetworkInterval : Nat
  maxQueueLenBroadcastOnSync : Nat
deriving DecidableEq

/-- The `NetworkDB` store state touched by the delegate handlers.

Modelled from the spec where the store layout is outside `src/`: the three
Go node maps (`nodes` / `failedNodes` / `leftNodes`) are modelled as one
registry `nodes` carrying a membership-state field, plus `memberlistNodes`,
the set of names currently known to the memberlist layer (the Go
`nDB.nodes` map keys, which `handleNodeEvent` and `handleNetworkEvent`
consult as "known from memberlist"). -/
structure NetworkDB where
  config : Config
  networkClock : Nat
  tableClock : Nat
  nodes : List (String × nodeRec)
  memberlistNodes : List String
  thisNodeNetworks : List (String × network)
  networks : List (String × List (String × network))
  networkNodes : List (String × List String)
  entries : List (entryKey × entry)
deriving DecidableEq

/-- Modelled from the spec: `findNode` (store helper outside `src/`) locates
a node record by name across the membership-state maps. -/
def findNode (nDB : NetworkDB) (name : String) : Option nodeRec :=
  alookup nDB.nodes name

/-- Modelled from the spec: `changeNodeState` (store helper outside `src/`)
transitions a node's membership state and reports whether a transition
actually occurred; an unknown node is an error, reported as no move. -/
def changeNodeState (nDB : NetworkDB) (name : String) (st : NodeState) :
    NetworkDB × Bool :=
  match alookup nDB.nodes name with
  | none => (nDB, false)
  | some n =>
      ({ nDB with nodes := ainsert nDB.nodes name { n with state := st } },
        n.state ≠ st)

/-- `handleNodeEvent` (delegate.go lines 20–74): witness the network clock;
drop if the node is entirely unknown, the event is stale, or the node is
unknown to memberlist; otherwise transition the node state and report
whether a transition occurred. -/
def handleNodeEvent (nDB : NetworkDB) (nEvent : NodeEvent) : NetworkDB × Bool :=
  let nDB := { nDB with networkClock := witnessClock nDB.networkClock nEvent.ltime }
  match findNode nDB nEvent.nodeName with
  | none => (nDB, false)
  | some n =>
      if n.ltime ≥ nEvent.ltime then (nDB, false)
      else
        let nDB := { nDB with
          nodes := ainsert nDB.nodes nEvent.nodeName { n with ltime := nEvent.ltime } }
        if ¬ nDB.memberlistNodes.contains nEvent.nodeName then (nDB, false)
        else
          match nEvent.eType with
          | NodeEventType.join => changeNodeState nDB nEvent.nodeName NodeState.active
          | NodeEventType.leave => changeNodeState nDB nEvent.nodeName NodeState.left
          | NodeEventType.invalid => (nDB, false)

/-- Modelled from the spec: `addNetworkNode` (store helper outside `src/`)
adds the node name to the network's remembered member set if absent. -/
def addNetworkNode (nn : List (String × List String)) (nid name : String) :
    List (String × List String) :=
  let cur := (alookup nn nid).getD []
  if cur.contains name then nn else ainsert nn nid (cur ++ [name])

/-- Modelled from the spec: `deleteNetworkNode` (store helper outside
`src/`) removes the node name from the network's remembered member set. -/
def deleteNetworkNode (nn : List (String × List String)) (nid name : String) :
    List (String × List String) :=
  ainsert nn nid (((alookup nn nid).getD []).filter (fun x => x ≠ name))

/-- Modelled from the spec: `deleteNodeNetworkEntries` (store helper outside
`src/`) deletes all the entries for this network owned by the node. -/
def deleteNodeNetworkEntries (nDB : NetworkDB) (nid name : String) : NetworkDB :=
  { nDB with entries :=
      nDB.entries.filter (fun kv => ¬ (kv.1.nid = nid ∧ kv.2.node = name)) }

/-- The tail of `handleNetworkEvent` (delegate.go lines 125–139), reached
when the (node, network) pair is not yet known: drop a Leave, drop if the
node is unknown from memberlist, else record the first-seen remote join.
`m` is the node's current inner network map. -/
def handleNetworkEventNewPair (nDB : NetworkDB) (nEvent : NetworkEvent)
    (m : List (String × network)) : NetworkDB × Bool :=
  if nEvent.eType = NetworkEventType.leave then (nDB, false)
  else if ¬ nDB.memberlistNodes.contains nEvent.nodeName then (nDB, false)
  else
    let fresh : network :=
      { ltime := nEvent.ltime, leaving := false, reapTime := 0,
        inSync := false, tableRebroadcasts := [] }
    let nets := ainsert nDB.networks nEvent.nodeName (ainsert m nEvent.networkID fresh)
    let nDB := { nDB with networks := nets }
    ({ nDB with networkNodes := addNetworkNode nDB.networkNodes nEvent.networkID nEvent.nodeName },
      true)

/-- `handleNetworkEvent` (delegate.go lines 76–140): witness the network
clock; ignore events about the local node; for a known (node, network) pair
accept only strictly fresher events, updating time/leaving/reap and the
member set; for an unknown pair fall through to
`handleNetworkEventNewPair`. -/
def handleNetworkEvent (nDB : NetworkDB) (nEvent : NetworkEvent) : NetworkDB × Bool :=
  let nDB := { nDB with networkClock := witnessClock nDB.networkClock nEvent.ltime }
  if nEvent.nodeName = nDB.config.NodeID then (nDB, false)
  else
    match alookup nDB.networks nEvent.nodeName with
    | none =>
        if nEvent.eType = NetworkEventType.leave then (nDB, false)
        else
          let nDB := { nDB with networks := ainsert nDB.networks nEvent.nodeName [] }
          handleNetworkEventNewPair nDB nEvent []
    | some m =>
        match alookup m nEvent.networkID with
        | some n =>
            if n.ltime ≥ nEvent.ltime then (nDB, false)
            else
              let leave := nEvent.eType = NetworkEventType.leave
              let n' := { n with
                ltime := nEvent.ltime,
                leaving := leave,
                reapTime := if leave then nDB.config.reapNetworkInterval else n.reapTime }
              let nets := ainsert nDB.networks nEvent.nodeName (ainsert m nEvent.networkID n')
              let nDB := { nDB with networks := nets }
              let nDB := if leave
                then deleteNodeNetworkEntries nDB nEvent.networkID nEvent.nodeName
                else nDB
              let nn := if leave
                then deleteNetworkNode nDB.networkNodes nEvent.networkID nEvent.nodeName
                else addNetworkNode nDB.networkNodes nEvent.networkID nEvent.nodeName
              ({ nDB with networkNodes := nn }, true)
        | none => handleNetworkEventNewPair nDB nEvent m

/-- Modelled from the spec: `getEntry` (store helper outside `src/`) looks
up the entry stored under (network id, table name, key); tombstones are
returned like live entries. -/
def getEntry (nDB : NetworkDB) (tname nid key : String) : Option entry :=
  alookup nDB.entries ⟨nid, tname, key⟩

/-- Modelled from the spec: `createOrUpdateEntry` (store helper outside
`src/`) applies the record — insert or overwrite — under its key. -/
def createOrUpdateEntry (nDB : NetworkDB) (nid tname key : String) (e : entry) :
    NetworkDB :=
  { nDB with entries := ainsert nDB.entries ⟨nid, tname, key⟩ e }

/-- A local watch notification (`WatchEvent`): `value`/`prev` are `none`
when the corresponding Go byte slice is left nil. -/
structure WatchEvent where
  table : String
  networkID : String
  key : String
  value : Option String
  prev : Option String
deriving DecidableEq

/-- `handleTableEvent` (delegate.go lines 142–249).  Returns the new store
state, the rebroadcast decision, and the watch notification written to the
broadcaster (if any). -/
def handleTableEvent (nDB : NetworkDB) (tEvent : TableEvent) (isBulkSync : Bool) :
    NetworkDB × Bool × Option WatchEvent :=
  let nDB := { nDB with tableClock := witnessClock nDB.tableClock tEvent.ltime }
  match alookup nDB.thisNodeNetworks tEvent.networkID with
  | none => (nDB, false, none)
  | some net =>
      let nodes := (alookup nDB.networkNodes tEvent.networkID).getD []
      if net.leaving ∨ ¬ nodes.contains tEvent.nodeName then (nDB, false, none)
      else
        let prevOpt := getEntry nDB tEvent.tableName tEvent.networkID tEvent.key
        if prevOpt.any (fun prev => tEvent.ltime ≤ prev.ltime) then (nDB, false, none)
        else
          let e0 : entry :=
            { ltime := tEvent.ltime, node := tEvent.nodeName, value := tEvent.value,
              deleting := tEvent.eType = TableEventType.delete,
              reapTime := tEvent.residualReapTime * second }
          let e := if e0.deleting ∧ e0.reapTime = 0
            then { e0 with reapTime := nDB.config.reapEntryInterval } else e0
          let nDB := createOrUpdateEntry nDB tEvent.networkID tEvent.tableName tEvent.key e
          if prevOpt = none ∧ tEvent.eType = TableEventType.delete then
            (nDB,
              isBulkSync && net.inSync &&
                decide (e.reapTime > nDB.config.reapEntryInterval / 6),
              none)
          else
            let ev : WatchEvent :=
              { table := tEvent.tableName, networkID := tEvent.networkID,
                key := tEvent.key, value := none, prev := none }
            match tEvent.eType with
            | TableEventType.create | TableEventType.update =>
                let ev := { ev with
                  value := some tEvent.value,
                  prev := match prevOpt with
                    | some prev => if prev.deleting then none else some prev.value
                    | none => none }
                (nDB, net.inSync, some ev)
            | TableEventType.delete =>
                match prevOpt with
                | some prev =>
                    if prev.deleting then (nDB, net.inSync, none)
                    else (nDB, net.inSync, some { ev with prev := some prev.value })
                | none => (nDB, net.inSync, none)
            | TableEventType.invalid => (nDB, net.inSync, some ev)

/-- Modelled from the spec: the broadcast queue's `QueueBroadcast` holds at
most one pending item per dedup key (network + table + key); a newer item
for an existing key supersedes the old one rather than appending. -/
def queueBroadcastTable (q : List tableEventMessage) (m : tableEventMessage) :
    List tableEventMessage :=
  if q.any (fun x => x.id = m.id ∧ x.tname = m.tname ∧ x.key = m.key)
  then q.map (fun x =>
    if x.id = m.id ∧ x.tname = m.tname ∧ x.key = m.key then m else x)
  else q ++ [m]

/-- The rebroadcast tail of `handleTableMessage` (delegate.go lines
285–305), run after `handleTableEvent` reported `true`: re-check
`thisNodeNetworks`, drop if the network is gone or leaving, drop a
bulk-sync rebroadcast when the queue is over the threshold, else enqueue
onto the per-network table broadcast queue. -/
def tableRebroadcastStep (nDB : NetworkDB) (tEvent : TableEvent)
    (isBulkSync : Bool) : NetworkDB :=
  match alookup nDB.thisNodeNetworks tEvent.networkID with
  | none => nDB
  | some n =>
      if n.leaving then nDB
      else if isBulkSync ∧
          n.tableRebroadcasts.length > nDB.config.maxQueueLenBroadcastOnSync then nDB
      else
        let item : tableEventMessage :=
          { id := tEvent.networkID, tname := tEvent.tableName,
            key := tEvent.key, msg := tEvent }
        let n' := { n with tableRebroadcasts := queueBroadcastTable n.tableRebroadcasts item }
        { nDB with thisNodeNetworks := ainsert nDB.thisNodeNetworks tEvent.networkID n' }

/-- `handleTableMessage` (delegate.go lines 265–306) on an already-decoded
event (the protobuf decode is external): ignore self-originated messages;
otherwise run `handleTableEvent` and, on a positive rebroadcast decision,
run the rebroadcast tail. -/
def handleTableMessage (nDB : NetworkDB) (tEvent : TableEvent) (isBulkSync : Bool) :
    NetworkDB × Option WatchEvent :=
  if tEvent.nodeName = nDB.config.NodeID then (nDB, none)
  else
    let r := handleTableEvent nDB tEvent isBulkSync
    if r.2.1 then (tableRebroadcastStep r.1 tEvent isBulkSync, r.2.2)
    else (r.1, r.2.2)

/-- One membership record of a push-pull snapshot (`NetworkEntry`). -/
structure NetworkEntryRec where
  ltime : Nat
  networkID : String
  nodeName : String
  leaving : Bool
deriving DecidableEq

/-- A push-pull snapshot (`NetworkPushPull`): sender name, network-clock
time, and all (node, network) membership records. -/
structure NetworkPushPull where
  ltime : Nat
  nodeName : String
  networks : List NetworkEntryRec
deriving DecidableEq

/-- The loop body of `MergeRemoteState` (delegate.go lines 501–514): build
a NetworkEvent from one membership record — Join, or Leave when the
record's leaving flag is set — and feed it to `handleNetworkEvent`. -/
def mergeNetworkRecord (s : NetworkDB) (n : NetworkEntryRec) : NetworkDB :=
  (handleNetworkEvent s
    { eType := if n.leaving then NetworkEventType.leave else NetworkEventType.join,
      ltime := n.ltime, nodeName := n.nodeName, networkID := n.networkID }).1

/-- `MergeRemoteState` (delegate.go lines 471–515) on an already-decoded
snapshot (the protobuf decode is external): feed a synthesized
NodeEvent(Join) for the sender and a NetworkEvent for every membership
record through the live-gossip handlers. -/
def MergeRemoteState (nDB : NetworkDB) (pp : NetworkPushPull) : NetworkDB :=
  let nDB := (handleNodeEvent nDB
    { eType := NodeEventType.join, ltime := pp.ltime, nodeName := pp.nodeName }).1
  pp.networks.foldl mergeNetworkRecord nDB

/-- Lookup of a remote (owning node, network) membership record, reading
the nested `networks` map the way the handlers do. -/
def netLookup (nDB : NetworkDB) (name nid : String) : Option network :=
  alookup ((alookup nDB.networks name).getD []) nid

/-! Concrete states used by witnesses and counterexamples. -/

/-- A small configuration: 60-second entry reap interval, sync-queue bound 2. -/
def cfgA : Config :=
  { NodeID := "me", reapEntryInterval := 60 * second,
    reapNetworkInterval := 100 * second, maxQueueLenBroadcastOnSync := 2 }

/-- An in-sync, non-leaving network record with an empty rebroadcast queue. -/
def netA : network :=
  { ltime := 1, leaving := false, reapTime := 0, inSync := true,
    tableRebroadcasts := [] }

/-- A store that has joined network `n1`, whose member set contains the
remote node `a` (known to memberlist, currently in left state). -/
def dbA : NetworkDB :=
  { config := cfgA, networkClock := 0, tableClock := 0,
    nodes := [("a", { ltime := 0, state := NodeState.left })],
    memberlistNodes := ["a"],
    thisNodeNetworks := [("n1", netA)],
    networks := [], networkNodes := [("n1", ["a"])], entries := [] }

/-- A delete event from node `a` for a key with no stored entry in `dbA`. -/
def tevA : TableEvent :=
  { eType := TableEventType.delete, ltime := 5, nodeName := "a", networkID := "n1",
    tableName := "t", key := "k", value := "v", residualReapTime := 30 }

/-- An entirely empty store (no nodes, no networks). -/
def dbEmpty : NetworkDB :=
  { config := cfgA, networkClock := 0, tableClock := 0,
    nodes := [], memberlistNodes := [],
    thisNodeNetworks := [], networks := [], networkNodes := [], entries := [] }

/-- A one-record push-pull snapshot from sender `A` about network `n1`. -/
def ppA : NetworkPushPull :=
  { ltime := 1, nodeName := "A",
    networks := [{ ltime := 1, networkID := "n1", nodeName := "A", leaving := false }] }

/-- An otherwise empty store whose membership layer already knows node `A`
(stored in left state with Lamport time 0). -/
def dbKnownA : NetworkDB :=
  { dbEmpty with nodes := [("A", { ltime := 0, state := NodeState.left })],
                 memberlistNodes := ["A"] }

/-! Theorems. -/

theorem alookup_ainsert_self {κ α : Type} [DecidableEq κ]
    (m : List (κ × α)) (k : κ) (v : α) : alookup (ainsert m k v) k = some v := by
  induction m with
  | nil => simp [ainsert, alookup]
  | cons hd tl ih =>
      obtain ⟨k', v'⟩ := hd
      by_cases h : k' = k <;> simp [ainsert, alookup, h, ih]

theorem alookup_ainsert_ne {κ α : Type} [DecidableEq κ]
    (m : List (κ × α)) (k k' : κ) (v : α) (h : k' ≠ k) :
    alookup (ainsert m k v) k' = alookup m k' := by
  have h' : ¬ k = k' := fun hk => h hk.symm
  induction m with
  | nil => simp [ainsert, alookup, h']
  | cons hd tl ih =>
      obtain ⟨k₀, v₀⟩ := hd
      by_cases h0 : k₀ = k
      · subst h0
        simp [ainsert, alookup, h']
      · simp [ainsert, alookup, h0, ih]

/-- C9: a table event message whose originating node name equals the local
node's ID is dropped by `handleTableMessage` before `handleTableEvent`
runs: the store is returned unchanged (no entry mutation, no clock witness,
no rebroadcast enqueued) and no watch notification is emitted. -/
theorem handleTableMessage_self_noop (nDB : NetworkDB) (tEvent : TableEvent)
    (isBulkSync : Bool) (h : tEvent.nodeName = nDB.config.NodeID) :
    handleTableMessage nDB tEvent isBulkSync = (nDB, none) := by
  simp [handleTableMessage, h]

theorem handleTableMessage_self_noop_witness :
    handleTableMessage dbA { tevA with nodeName := "me" } true = (dbA, none) :=
  handleTableMessage_self_noop dbA { tevA with nodeName := "me" } true (by decide)

/-- C5: a table event is rejected — `handleTableEvent` returns `false`,
mutates nothing beyond witnessing the table clock, and emits no watch
notification — whenever the local node is not a member of the event's
network, or that network is marked leaving, or the originating node is not
in the network's remembered member set. -/
theorem handleTableEvent_topology_reject (nDB : NetworkDB) (t : TableEvent) (b : Bool)
    (h : alookup nDB.thisNodeNetworks t.networkID = none ∨
         ∃ net, alookup nDB.thisNodeNetworks t.networkID = some net ∧
           (net.leaving = true ∨
            ((alookup nDB.networkNodes t.networkID).getD []).contains t.nodeName = false)) :
    handleTableEvent nDB t b =
      ({ nDB with tableClock := witnessClock nDB.tableClock t.ltime }, false, none) := by
  rcases h with h | ⟨net, hnet, hcond⟩
  · simp [handleTableEvent, h]
  · rcases hcond with hl | hp
    · simp [handleTableEvent, hnet, hl]
    · have hp' : t.nodeName ∉ (alookup nDB.networkNodes t.networkID).getD [] := by
        simpa using hp
      simp [handleTableEvent, hnet, hp']

theorem handleTableEvent_topology_reject_witness :
    handleTableEvent dbA { tevA with nodeName := "b" } true =
      ({ dbA with tableClock := witnessClock dbA.tableClock 5 }, false, none) :=
  handleTableEvent_topology_reject dbA { tevA with nodeName := "b" } true
    (Or.inr ⟨netA, by decide, Or.inr (by decide)⟩)

/-- C2: when the stored entry for the event's (network, table, key) has
Lamport time at least the event's, `handleTableEvent` returns `false`,
changes nothing but the witnessed table clock, and emits no watch
notification; consequently `handleTableMessage` (for a non-self message)
leaves the same state and enqueues no rebroadcast. -/
theorem handleTableEvent_stale_noop (nDB : NetworkDB) (t : TableEvent) (b : Bool)
    (prev : entry)
    (hprev : getEntry nDB t.tableName t.networkID t.key = some prev)
    (hstale : t.ltime ≤ prev.ltime) :
    handleTableEvent nDB t b =
      ({ nDB with tableClock := witnessClock nDB.tableClock t.ltime }, false, none) ∧
    (t.nodeName ≠ nDB.config.NodeID →
      handleTableMessage nDB t b =
        ({ nDB with tableClock := witnessClock nDB.tableClock t.ltime }, none)) := by
  have hany : (alookup nDB.entries ⟨t.networkID, t.tableName, t.key⟩).any
      (fun p => decide (t.ltime ≤ p.ltime)) = true := by
    have hp := hprev
    simp only [getEntry] at hp
    rw [hp]
    simpa using hstale
  have hev : handleTableEvent nDB t b =
      ({ nDB with tableClock := witnessClock nDB.tableClock t.ltime }, false, none) := by
    rcases hn : alookup nDB.thisNodeNetworks t.networkID with _ | net
    · simp [handleTableEvent, hn]
    · by_cases hl : net.leaving = true
      · simp [handleTableEvent, hn, hl]
      · by_cases hp : t.nodeName ∈ (alookup nDB.networkNodes t.networkID).getD []
        · simp [handleTableEvent, hn, hl, hp, getEntry, hany]
        · simp [handleTableEvent, hn, hl, hp]
  refine ⟨hev, fun hne => ?_⟩
  simp [handleTableMessage, hne, hev]

theorem handleTableEvent_stale_noop_witness :
    handleTableEvent
        { dbA with entries := [(⟨"n1", "t", "k"⟩,
            { ltime := 7, node := "a", value := "old", deleting := false, reapTime := 0 })] }
        tevA true =
      ({ dbA with
          entries := [(⟨"n1", "t", "k"⟩,
            { ltime := 7, node := "a", value := "old", deleting := false, reapTime := 0 })],
          tableClock := witnessClock dbA.tableClock 5 }, false, none) := by
  have h := handleTableEvent_stale_noop
    { dbA with entries := [(⟨"n1", "t", "k"⟩,
        { ltime := 7, node := "a", value := "old", deleting := false, reapTime := 0 })] }
    tevA true
    { ltime := 7, node := "a", value := "old", deleting := false, reapTime := 0 }
    (by decide) (by decide)
  exact h.1

theorem handleTableEvent_frame (nDB : NetworkDB) (t : TableEvent) (b : Bool) :
    (handleTableEvent nDB t b).1.config = nDB.config ∧
    (handleTableEvent nDB t b).1.thisNodeNetworks = nDB.thisNodeNetworks ∧
    (handleTableEvent nDB t b).1.networkNodes = nDB.networkNodes ∧
    (handleTableEvent nDB t b).1.tableClock = witnessClock nDB.tableClock t.ltime := by
  unfold handleTableEvent createOrUpdateEntry
  repeat' split <;> try simp_all

theorem tableRebroadcastStep_tableClock (nDB : NetworkDB) (t : TableEvent) (b : Bool) :
    (tableRebroadcastStep nDB t b).tableClock = nDB.tableClock := by
  unfold tableRebroadcastStep
  repeat' split <;> try simp_all

/-- C10: the rebroadcast tail of `handleTableMessage` re-checks
`thisNodeNetworks` after `handleTableEvent` has run (and released the
lock): whatever state that re-check observes, if the network is absent or
its leaving flag is set, the state is returned unchanged — no rebroadcast
is ever enqueued for a network the local node no longer belongs to or is
leaving. -/
theorem tableRebroadcastStep_gone_or_leaving (nDB : NetworkDB) (t : TableEvent)
    (b : Bool)
    (h : alookup nDB.thisNodeNetworks t.networkID = none ∨
         ∃ n, alookup nDB.thisNodeNetworks t.networkID = some n ∧ n.leaving = true) :
    tableRebroadcastStep nDB t b = nDB := by
  rcases h with h | ⟨n, hn, hl⟩
  · simp [tableRebroadcastStep, h]
  · simp [tableRebroadcastStep, hn, hl]

theorem tableRebroadcastStep_gone_or_leaving_witness :
    tableRebroadcastStep
        { dbA with thisNodeNetworks := [("n1", { netA with leaving := true })] }
        tevA true =
      { dbA with thisNodeNetworks := [("n1", { netA with leaving := true })] } :=
  tableRebroadcastStep_gone_or_leaving
    { dbA with thisNodeNetworks := [("n1", { netA with leaving := true })] }
    tevA true (Or.inr ⟨{ netA with leaving := true }, by decide, by decide⟩)

/-- C8: a table event message processed via bulk sync is not enqueued for
rebroadcast when the per-network table broadcast queue's queued count
exceeds the configured threshold: the state after `handleTableMessage` is
exactly the state `handleTableEvent` produced, with no queue change. -/
theorem handleTableMessage_sync_backpressure (nDB : NetworkDB) (t : TableEvent)
    (n : network)
    (hself : t.nodeName ≠ nDB.config.NodeID)
    (hnet : alookup nDB.thisNodeNetworks t.networkID = some n)
    (hq : n.tableRebroadcasts.length > nDB.config.maxQueueLenBroadcastOnSync) :
    (handleTableMessage nDB t true).1 = (handleTableEvent nDB t true).1 := by
  have hfr := handleTableEvent_frame nDB t true
  by_cases hr : (handleTableEvent nDB t true).2.1 = true
  · have hnet' : alookup (handleTableEvent nDB t true).1.thisNodeNetworks t.networkID
        = some n := by
      rw [hfr.2.1]; exact hnet
    have hq' : n.tableRebroadcasts.length >
        (handleTableEvent nDB t true).1.config.maxQueueLenBroadcastOnSync := by
      rw [hfr.1]; exact hq
    by_cases hl : n.leaving = true
    · simp [handleTableMessage, hself, hr, tableRebroadcastStep, hnet', hl]
    · simp [handleTableMessage, hself, hr, tableRebroadcastStep, hnet', hl, hq']
  · simp [handleTableMessage, hself, hr]

theorem handleTableMessage_sync_backpressure_witness :
    (handleTableMessage
        { dbA with thisNodeNetworks := [("n1", { netA with tableRebroadcasts :=
            [⟨"n1", "t", "x1", tevA⟩, ⟨"n1", "t", "x2", tevA⟩, ⟨"n1", "t", "x3", tevA⟩] })] }
        tevA true).1 =
      (handleTableEvent
        { dbA with thisNodeNetworks := [("n1", { netA with tableRebroadcasts :=
            [⟨"n1", "t", "x1", tevA⟩, ⟨"n1", "t", "x2", tevA⟩, ⟨"n1", "t", "x3", tevA⟩] })] }
        tevA true).1 :=
  handleTableMessage_sync_backpressure _ tevA
    { netA with tableRebroadcasts :=
        [⟨"n1", "t", "x1", tevA⟩, ⟨"n1", "t", "x2", tevA⟩, ⟨"n1", "t", "x3", tevA⟩] }
    (by decide) (by decide) (by decide)

/-- C3 counterexample: an inbound table event message originated by the
local node itself (here `dbA`, whose node ID is `me`) is dropped before the
table clock is witnessed, so the clock is not raised to the maximum of its
current value and the event's Lamport time — refuting the claim for *every*
inbound table event message. -/
theorem handleTableMessage_self_clock_not_witnessed :
    (handleTableMessage dbA { tevA with nodeName := "me" } false).1.tableClock ≠
      witnessClock dbA.tableClock ({ tevA with nodeName := "me" } : TableEvent).ltime := by
  decide

/-- C3 (amended): for every inbound table event message whose originating
node is not the local node, the table-scope Lamport clock is witnessed —
raised to the maximum of its current value and the event's Lamport time,
never lowered — regardless of whether the event is subsequently rejected as
stale, rejected by the topology checks, or otherwise dropped; and
`handleTableEvent` itself witnesses unconditionally. -/
theorem handleTableMessage_witnesses_clock (nDB : NetworkDB) (t : TableEvent)
    (b : Bool) (h : t.nodeName ≠ nDB.config.NodeID) :
    (handleTableMessage nDB t b).1.tableClock = witnessClock nDB.tableClock t.ltime ∧
    (handleTableEvent nDB t b).1.tableClock = witnessClock nDB.tableClock t.ltime := by
  have hfr := (handleTableEvent_frame nDB t b).2.2.2
  refine ⟨?_, hfr⟩
  by_cases hr : (handleTableEvent nDB t b).2.1 = true
  · simp [handleTableMessage, h, hr, tableRebroadcastStep_tableClock, hfr]
  · simp [handleTableMessage, h, hr, hfr]

theorem handleTableMessage_witnesses_clock_witness :
    (handleTableMessage dbA tevA false).1.tableClock = witnessClock dbA.tableClock 5 :=
  (handleTableMessage_witnesses_clock dbA tevA false (by decide)).1

/-- C1: for a Delete event whose key has no stored entry, passing the
topology checks, `handleTableEvent` rebroadcasts if and only if the event
came via bulk sync, the network's `inSync` flag is set, and the constructed
entry's residual reap time (the event's residual seconds, or the full
configured reap interval when those are zero) strictly exceeds one sixth of
the configured total reap interval; in particular such a delete delivered
outside bulk sync is never rebroadcast. -/
theorem handleTableEvent_delete_unknown_rebroadcast
    (nDB : NetworkDB) (t : TableEvent) (b : Bool) (net : network)
    (hnet : alookup nDB.thisNodeNetworks t.networkID = some net)
    (hleaving : net.leaving = false)
    (hpresent : ((alookup nDB.networkNodes t.networkID).getD []).contains t.nodeName = true)
    (hentry : getEntry nDB t.tableName t.networkID t.key = none)
    (htype : t.eType = TableEventType.delete) :
    ((handleTableEvent nDB t b).2.1 = true ↔
      (b = true ∧ net.inSync = true ∧
        (if t.residualReapTime = 0 then nDB.config.reapEntryInterval
         else t.residualReapTime * second) > nDB.config.reapEntryInterval / 6)) ∧
    (handleTableEvent nDB t false).2.1 = false := by
  have hp' : t.nodeName ∈ (alookup nDB.networkNodes t.networkID).getD [] := by
    simpa using hpresent
  have hent' : alookup nDB.entries ⟨t.networkID, t.tableName, t.key⟩ = none := by
    simpa [getEntry] using hentry
  by_cases h0 : t.residualReapTime = 0
  · constructor
    · simp [handleTableEvent, hnet, hleaving, hp', getEntry, hent', htype, h0,
        createOrUpdateEntry, second, Bool.and_eq_true, and_assoc]
    · simp [handleTableEvent, hnet, hleaving, hp', getEntry, hent', htype, h0,
        createOrUpdateEntry, second]
  · constructor
    · simp [handleTableEvent, hnet, hleaving, hp', getEntry, hent', htype, h0,
        createOrUpdateEntry, second, Bool.and_eq_true, and_assoc]
    · simp [handleTableEvent, hnet, hleaving, hp', getEntry, hent', htype, h0,
        createOrUpdateEntry, second]

theorem handleTableEvent_delete_unknown_rebroadcast_witness :
    (handleTableEvent dbA tevA true).2.1 = true ∧
    (handleTableEvent dbA tevA false).2.1 = false := by
  have h := handleTableEvent_delete_unknown_rebroadcast dbA tevA true netA
    (by decide) (by decide) (by decide) (by decide) (by decide)
  exact ⟨h.1.mpr (by decide), h.2⟩

/-- C6: for an accepted table event (topology checks pass and the event is
strictly fresher than any stored entry): for a Delete, a watch notification
is emitted if and only if an entry was previously present and not already a
tombstone, and it then carries the previously stored value; for
Create/Update, the notification is emitted and carries the previous value
exactly when an entry was present and not a tombstone. -/
theorem handleTableEvent_watch_notification
    (nDB : NetworkDB) (t : TableEvent) (b : Bool) (net : network)
    (hnet : alookup nDB.thisNodeNetworks t.networkID = some net)
    (hleaving : net.leaving = false)
    (hpresent : ((alookup nDB.networkNodes t.networkID).getD []).contains t.nodeName = true)
    (hfresh : (getEntry nDB t.tableName t.networkID t.key).any
        (fun p => decide (t.ltime ≤ p.ltime)) = false) :
    (t.eType = TableEventType.delete →
      (handleTableEvent nDB t b).2.2 =
        (match getEntry nDB t.tableName t.networkID t.key with
         | some prev =>
             if prev.deleting then none
             else some { table := t.tableName, networkID := t.networkID, key := t.key,
                         value := none, prev := some prev.value }
         | none => none)) ∧
    ((t.eType = TableEventType.create ∨ t.eType = TableEventType.update) →
      (handleTableEvent nDB t b).2.2 =
        some { table := t.tableName, networkID := t.networkID, key := t.key,
               value := some t.value,
               prev := match getEntry nDB t.tableName t.networkID t.key with
                       | some prev => if prev.deleting then none else some prev.value
                       | none => none }) := by
  have hp' : t.nodeName ∈ (alookup nDB.networkNodes t.networkID).getD [] := by
    simpa using hpresent
  rcases hprev : alookup nDB.entries ⟨t.networkID, t.tableName, t.key⟩ with _ | prev
  · constructor
    · intro ht
      simp [handleTableEvent, hnet, hleaving, hp', getEntry, hprev, ht]
    · rintro (ht | ht) <;>
        simp [handleTableEvent, hnet, hleaving, hp', getEntry, hprev, ht]
  · have hnle : ¬ (t.ltime ≤ prev.ltime) := by
      simp only [getEntry] at hfresh
      rw [hprev] at hfresh
      simpa using hfresh
    constructor
    · intro ht
      by_cases hd : prev.deleting = true <;>
        simp [handleTableEvent, hnet, hleaving, hp', getEntry, hprev, ht, hd, hnle]
    · rintro (ht | ht) <;> by_cases hd : prev.deleting = true <;>
        simp [handleTableEvent, hnet, hleaving, hp', getEntry, hprev, ht, hd, hnle]

theorem handleTableEvent_watch_notification_witness :
    (handleTableEvent
        { dbA with entries := [(⟨"n1", "t", "k"⟩,
            { ltime := 3, node := "a", value := "old", deleting := false, reapTime := 0 })] }
        { tevA with eType := TableEventType.update } true).2.2 =
      some { table := "t", networkID := "n1", key := "k",
             value := some "v", prev := some "old" } := by
  have h := (handleTableEvent_watch_notification
    { dbA with entries := [(⟨"n1", "t", "k"⟩,
        { ltime := 3, node := "a", value := "old", deleting := false, reapTime := 0 })] }
    { tevA with eType := TableEventType.update } true netA
    (by decide) (by decide) (by decide) (by decide)).2 (Or.inr rfl)
  rw [h]
  decide

theorem handleNodeEvent_networkClock (nDB : NetworkDB) (ev : NodeEvent) :
    (handleNodeEvent nDB ev).1.networkClock = witnessClock nDB.networkClock ev.ltime := by
  unfold handleNodeEvent changeNodeState findNode
  repeat' split <;> try simp_all

/-- C7: `handleNodeEvent` witnesses the network-scope clock on every event;
it returns `false` when the named node is entirely unknown, when the
event's Lamport time does not strictly exceed the stored node's time, or
when the node is unknown to the memberlist layer; and on a fresh Join
(resp. Leave) for a memberlist-known node it transitions the node to the
active (resp. left) state and returns `true` exactly when a state
transition actually occurred. -/
theorem handleNodeEvent_spec (nDB : NetworkDB) (ev : NodeEvent) :
    (handleNodeEvent nDB ev).1.networkClock = witnessClock nDB.networkClock ev.ltime ∧
    (findNode nDB ev.nodeName = none → (handleNodeEvent nDB ev).2 = false) ∧
    (∀ n, findNode nDB ev.nodeName = some n → ev.ltime ≤ n.ltime →
      (handleNodeEvent nDB ev).2 = false) ∧
    (nDB.memberlistNodes.contains ev.nodeName = false →
      (handleNodeEvent nDB ev).2 = false) ∧
    (∀ n, findNode nDB ev.nodeName = some n → n.ltime < ev.ltime →
      nDB.memberlistNodes.contains ev.nodeName = true →
      ev.eType = NodeEventType.join →
      (handleNodeEvent nDB ev).2 = decide (n.state ≠ NodeState.active) ∧
      findNode (handleNodeEvent nDB ev).1 ev.nodeName =
        some { ltime := ev.ltime, state := NodeState.active }) ∧
    (∀ n, findNode nDB ev.nodeName = some n → n.ltime < ev.ltime →
      nDB.memberlistNodes.contains ev.nodeName = true →
      ev.eType = NodeEventType.leave →
      (handleNodeEvent nDB ev).2 = decide (n.state ≠ NodeState.left) ∧
      findNode (handleNodeEvent nDB ev).1 ev.nodeName =
        some { ltime := ev.ltime, state := NodeState.left }) := by
  refine ⟨handleNodeEvent_networkClock nDB ev, ?_, ?_, ?_, ?_, ?_⟩
  · intro h
    simp [handleNodeEvent, findNode] at h ⊢
    simp [h]
  · intro n hn hst
    simp only [findNode] at hn
    simp [handleNodeEvent, findNode, hn, hst]
  · intro hm
    rcases hn : alookup nDB.nodes ev.nodeName with _ | n
    · simp [handleNodeEvent, findNode, hn]
    · by_cases hst : ev.ltime ≤ n.ltime
      · simp [handleNodeEvent, findNode, hn, hst]
      · have hm' : ¬ ev.nodeName ∈ nDB.memberlistNodes := by simpa using hm
        simp [handleNodeEvent, findNode, hn, hst, hm']
  · intro n hn hlt hm ht
    simp only [findNode] at hn
    have hm' : ev.nodeName ∈ nDB.memberlistNodes := by simpa using hm
    constructor <;>
      simp [handleNodeEvent, findNode, changeNodeState, hn, Nat.not_le.mpr hlt, hm', ht,
        alookup_ainsert_self]
  · intro n hn hlt hm ht
    simp only [findNode] at hn
    have hm' : ev.nodeName ∈ nDB.memberlistNodes := by simpa using hm
    constructor <;>
      simp [handleNodeEvent, findNode, changeNodeState, hn, Nat.not_le.mpr hlt, hm', ht,
        alookup_ainsert_self]

theorem handleNodeEvent_spec_witness :
    (handleNodeEvent dbA { eType := NodeEventType.join, ltime := 3, nodeName := "a" }).2
      = true ∧
    findNode (handleNodeEvent dbA
        { eType := NodeEventType.join, ltime := 3, nodeName := "a" }).1 "a" =
      some { ltime := 3, state := NodeState.active } := by
  have h := (handleNodeEvent_spec dbA
      { eType := NodeEventType.join, ltime := 3, nodeName := "a" }).2.2.2.2.1
    { ltime := 0, state := NodeState.left } (by decide) (by decide) (by decide) rfl
  exact ⟨by rw [h.1]; decide, h.2⟩

theorem handleNodeEvent_frame (nDB : NetworkDB) (ev : NodeEvent) :
    (handleNodeEvent nDB ev).1.config = nDB.config ∧
    (handleNodeEvent nDB ev).1.memberlistNodes = nDB.memberlistNodes ∧
    (handleNodeEvent nDB ev).1.networks = nDB.networks := by
  unfold handleNodeEvent changeNodeState findNode
  repeat' split <;> try simp_all

theorem handleNodeEvent_join_nodes (nDB : NetworkDB) (ev : NodeEvent) (n : nodeRec)
    (hn : alookup nDB.nodes ev.nodeName = some n) (hlt : n.ltime < ev.ltime)
    (hm : ev.nodeName ∈ nDB.memberlistNodes) (ht : ev.eType = NodeEventType.join) :
    alookup (handleNodeEvent nDB ev).1.nodes ev.nodeName =
      some { ltime := ev.ltime, state := NodeState.active } := by
  simp [handleNodeEvent, findNode, changeNodeState, hn, Nat.not_le.mpr hlt, hm, ht,
    alookup_ainsert_self]

theorem handleNetworkEvent_frame (s : NetworkDB) (ev : NetworkEvent) :
    (handleNetworkEvent s ev).1.config = s.config ∧
    (handleNetworkEvent s ev).1.memberlistNodes = s.memberlistNodes ∧
    (handleNetworkEvent s ev).1.nodes = s.nodes := by
  unfold handleNetworkEvent handleNetworkEventNewPair deleteNodeNetworkEntries
  repeat' split <;> try simp_all

theorem handleNetworkEvent_join_new (s : NetworkDB) (ev : NetworkEvent)
    (hnl : ev.nodeName ≠ s.config.NodeID)
    (hjoin : ev.eType = NetworkEventType.join)
    (hmem : ev.nodeName ∈ s.memberlistNodes)
    (habs : netLookup s ev.nodeName ev.networkID = none) :
    netLookup (handleNetworkEvent s ev).1 ev.nodeName ev.networkID =
      some { ltime := ev.ltime, leaving := false, reapTime := 0, inSync := false,
             tableRebroadcasts := [] } ∧
    ∀ name nid, ¬ (name = ev.nodeName ∧ nid = ev.networkID) →
      netLookup (handleNetworkEvent s ev).1 name nid = netLookup s name nid := by
  rcases hm : alookup s.networks ev.nodeName with _ | m
  · have hres : (handleNetworkEvent s ev).1.networks =
        ainsert (ainsert s.networks ev.nodeName []) ev.nodeName
          (ainsert [] ev.networkID
            { ltime := ev.ltime, leaving := false, reapTime := 0, inSync := false,
              tableRebroadcasts := [] }) := by
      simp [handleNetworkEvent, handleNetworkEventNewPair, hnl, hjoin, hm, hmem]
    constructor
    · simp [netLookup, hres, alookup_ainsert_self, ainsert, alookup]
    · intro name nid hne
      by_cases hname : name = ev.nodeName
      · subst hname
        have hnid : nid ≠ ev.networkID := fun h => hne ⟨rfl, h⟩
        have hnid' : ¬ (ev.networkID = nid) := fun h => hnid h.symm
        simp [netLookup, hres, alookup_ainsert_self, hm, ainsert, alookup, hnid']
      · simp [netLookup, hres, alookup_ainsert_ne _ _ _ _ hname]
  · have habs' : alookup m ev.networkID = none := by
      simpa [netLookup, hm] using habs
    have hres : (handleNetworkEvent s ev).1.networks =
        ainsert s.networks ev.nodeName
          (ainsert m ev.networkID
            { ltime := ev.ltime, leaving := false, reapTime := 0, inSync := false,
              tableRebroadcasts := [] }) := by
      simp [handleNetworkEvent, handleNetworkEventNewPair, hnl, hjoin, hm, habs', hmem]
    constructor
    · simp [netLookup, hres, alookup_ainsert_self]
    · intro name nid hne
      by_cases hname : name = ev.nodeName
      · subst hname
        have hnid : nid ≠ ev.networkID := fun h => hne ⟨rfl, h⟩
        simp [netLookup, hres, alookup_ainsert_self, hm,
          alookup_ainsert_ne _ _ _ _ hnid]
      · simp [netLookup, hres, alookup_ainsert_ne _ _ _ _ hname]

theorem mergeNetworks_fold (l : List NetworkEntryRec) (s : NetworkDB)
    (hrec : ∀ r ∈ l, r.nodeName ≠ s.config.NodeID ∧ r.leaving = false ∧
        r.nodeName ∈ s.memberlistNodes)
    (habs : ∀ r ∈ l, netLookup s r.nodeName r.networkID = none)
    (hnodup : (l.map (fun r => (r.nodeName, r.networkID))).Nodup) :
    (l.foldl mergeNetworkRecord s).config = s.config ∧
    (l.foldl mergeNetworkRecord s).memberlistNodes = s.memberlistNodes ∧
    (l.foldl mergeNetworkRecord s).nodes = s.nodes ∧
    (∀ name nid, (∀ r ∈ l, ¬ (name = r.nodeName ∧ nid = r.networkID)) →
      netLookup (l.foldl mergeNetworkRecord s) name nid = netLookup s name nid) ∧
    (∀ r ∈ l, netLookup (l.foldl mergeNetworkRecord s) r.nodeName r.networkID =
      some { ltime := r.ltime, leaving := false, reapTime := 0, inSync := false,
             tableRebroadcasts := [] }) := by
  induction l generalizing s with
  | nil => simp
  | cons r rest ih =>
      obtain ⟨hnl, hlv, hmem⟩ := hrec r (List.mem_cons_self r rest)
      have hev : mergeNetworkRecord s r =
          (handleNetworkEvent s
            { eType := NetworkEventType.join, ltime := r.ltime,
              nodeName := r.nodeName, networkID := r.networkID }).1 := by
        simp [mergeNetworkRecord, hlv]
      have hstep := handleNetworkEvent_join_new s
        { eType := NetworkEventType.join, ltime := r.ltime,
          nodeName := r.nodeName, networkID := r.networkID }
        hnl rfl hmem (habs r (List.mem_cons_self r rest))
      have hfr := handleNetworkEvent_frame s
        { eType := NetworkEventType.join, ltime := r.ltime,
          nodeName := r.nodeName, networkID := r.networkID }
      have hcfg : (mergeNetworkRecord s r).config = s.config := by rw [hev]; exact hfr.1
      have hml : (mergeNetworkRecord s r).memberlistNodes = s.memberlistNodes := by
        rw [hev]; exact hfr.2.1
      have hnd : (mergeNetworkRecord s r).nodes = s.nodes := by rw [hev]; exact hfr.2.2
      have hself : netLookup (mergeNetworkRecord s r) r.nodeName r.networkID =
          some { ltime := r.ltime, leaving := false, reapTime := 0, inSync := false,
                 tableRebroadcasts := [] } := by rw [hev]; exact hstep.1
      have hother : ∀ name nid, ¬ (name = r.nodeName ∧ nid = r.networkID) →
          netLookup (mergeNetworkRecord s r) name nid = netLookup s name nid := by
        intro name nid hne
        rw [hev]
        exact hstep.2 name nid hne
      have hpair : ∀ r' ∈ rest, ¬ (r'.nodeName = r.nodeName ∧ r'.networkID = r.networkID) := by
        intro r' hr' hcon
        have hmem' : (r.nodeName, r.networkID) ∈ rest.map (fun x => (x.nodeName, x.networkID)) := by
          refine List.mem_map.mpr ⟨r', hr', ?_⟩
          simp [hcon.1, hcon.2]
        have := (List.nodup_cons.mp hnodup).1
        exact this hmem'
      have ihres := ih (mergeNetworkRecord s r)
        (by
          intro r' hr'
          obtain ⟨a, b, c⟩ := hrec r' (List.mem_cons_of_mem r hr')
          exact ⟨by rw [hcfg]; exact a, b, by rw [hml]; exact c⟩)
        (by
          intro r' hr'
          rw [hother r'.nodeName r'.networkID (hpair r' hr')]
          exact habs r' (List.mem_cons_of_mem r hr'))
        (by
          have := (List.nodup_cons.mp hnodup).2
          simpa using this)
      refine ⟨?_, ?_, ?_, ?_, ?_⟩
      · simp only [List.foldl_cons]
        rw [ihres.1, hcfg]
      · simp only [List.foldl_cons]
        rw [ihres.2.1, hml]
      · simp only [List.foldl_cons]
        rw [ihres.2.2.1, hnd]
      · intro name nid hne
        simp only [List.foldl_cons]
        rw [ihres.2.2.2.1 name nid (fun r' hr' => hne r' (List.mem_cons_of_mem r hr'))]
        exact hother name nid (hne r (List.mem_cons_self r rest))
      · intro r' hr'
        simp only [List.foldl_cons]
        rcases List.mem_cons.mp hr' with h | h
        · subst h
          rw [ihres.2.2.2.1 r'.nodeName r'.networkID
            (fun x hx hcon => hpair x hx ⟨hcon.1.symm, hcon.2.symm⟩)]
          exact hself
        · exact ihres.2.2.2.2 r' h

/-- C4 counterexample: `MergeRemoteState` applied to an entirely empty
local store (no nodes, no networks) does NOT reproduce the snapshot's
content.  For the one-record snapshot `ppA` from sender `A`, the
synthesized NodeEvent(Join) is dropped because `A` is unknown, and the
membership record is dropped because `A` is unknown from memberlist: the
merged store holds no (node, network) record and no node record for the
sender. -/
theorem MergeRemoteState_empty_drops_all :
    netLookup (MergeRemoteState dbEmpty ppA) "A" "n1" = none ∧
    findNode (MergeRemoteState dbEmpty ppA) "A" = none := by
  decide

/-- C4 (amended): `MergeRemoteState` routes the snapshot through the
live-gossip handlers, so a record survives only if its node is already
known to the membership layer.  For a well-formed snapshot with pairwise
distinct (node, network) records, all non-leaving, about non-local nodes
known to memberlist and with no stored record yet, merging stores every
membership record with the snapshot's Lamport time and a clear leaving
flag; and the sender — when already known with an older Lamport time and
known to memberlist — is recorded as an active (joined) node at the
snapshot's time.  Applied to an empty store everything is dropped instead
(see the counterexample). -/
theorem MergeRemoteState_merges_known (nDB : NetworkDB) (pp : NetworkPushPull)
    (n0 : nodeRec)
    (hrec : ∀ r ∈ pp.networks, r.nodeName ≠ nDB.config.NodeID ∧ r.leaving = false ∧
        r.nodeName ∈ nDB.memberlistNodes)
    (habs : ∀ r ∈ pp.networks, netLookup nDB r.nodeName r.networkID = none)
    (hnodup : (pp.networks.map (fun r => (r.nodeName, r.networkID))).Nodup)
    (hsender : findNode nDB pp.nodeName = some n0)
    (hfresh : n0.ltime < pp.ltime)
    (hsmem : pp.nodeName ∈ nDB.memberlistNodes) :
    (∀ r ∈ pp.networks,
      netLookup (MergeRemoteState nDB pp) r.nodeName r.networkID =
        some { ltime := r.ltime, leaving := false, reapTime := 0, inSync := false,
               tableRebroadcasts := [] }) ∧
    findNode (MergeRemoteState nDB pp) pp.nodeName =
      some { ltime := pp.ltime, state := NodeState.active } := by
  have hsender' : alookup nDB.nodes pp.nodeName = some n0 := hsender
  have hnfr := handleNodeEvent_frame nDB
    { eType := NodeEventType.join, ltime := pp.ltime, nodeName := pp.nodeName }
  have hnjoin := handleNodeEvent_join_nodes nDB
    { eType := NodeEventType.join, ltime := pp.ltime, nodeName := pp.nodeName }
    n0 hsender' hfresh hsmem rfl
  have hs₁ : MergeRemoteState nDB pp =
      pp.networks.foldl mergeNetworkRecord
        (handleNodeEvent nDB
          { eType := NodeEventType.join, ltime := pp.ltime, nodeName := pp.nodeName }).1 := by
    simp [MergeRemoteState]
  have hnetLookup : ∀ name nid,
      netLookup (handleNodeEvent nDB
        { eType := NodeEventType.join, ltime := pp.ltime, nodeName := pp.nodeName }).1
        name nid = netLookup nDB name nid := by
    intro name nid
    simp [netLookup, hnfr.2.2]
  have hfold := mergeNetworks_fold pp.networks
    (handleNodeEvent nDB
      { eType := NodeEventType.join, ltime := pp.ltime, nodeName := pp.nodeName }).1
    (by
      intro r hr
      obtain ⟨a, b, c⟩ := hrec r hr
      exact ⟨by rw [hnfr.1]; exact a, b, by rw [hnfr.2.1]; exact c⟩)
    (by
      intro r hr
      rw [hnetLookup]
      exact habs r hr)
    hnodup
  constructor
  · intro r hr
    rw [hs₁]
    exact hfold.2.2.2.2 r hr
  · rw [hs₁]
    show alookup (pp.networks.foldl mergeNetworkRecord _).nodes pp.nodeName = _
    rw [hfold.2.2.1]
    exact hnjoin

theorem MergeRemoteState_merges_known_witness :
    netLookup (MergeRemoteState dbKnownA ppA) "A" "n1" =
      some { ltime := 1, leaving := false, reapTime := 0, inSync := false,
             tableRebroadcasts := [] } ∧
    findNode (MergeRemoteState dbKnownA ppA) "A" =
      some { ltime := 1, state := NodeState.active } := by
  have h := MergeRemoteState_merges_known dbKnownA ppA
    { ltime := 0, state := NodeState.left }
    (by decide) (by decide) (by decide) (by decide) (by decide) (by decide)
  exact ⟨h.1 _ (List.mem_cons_self _ _), h.2⟩

end Networkdb
